import Mathlib

/-!
Shallow embedding of `src/lib/object-template-validator.js` (the
Metrological object-template validator) and proofs about its behaviour.

JavaScript runtime values are modelled by the inductive type `Val`; the
predicate combinators of the library are modelled both as plain boolean
functions over `Val` (for the combinators that take arbitrary predicate
functions) and as a first-order template type `Tmpl` together with an
evaluator that also tracks the mismatch messages pushed onto the module
level `messages` array via the shared event emitter.

The repository delegates the key-set / per-key congruence check to the
external `congruence` npm module, which is not part of the sources; the
functions `congruentM` and `congruentKeys` below are therefore modelled
from the specification of the congruence engine (spec section 4.3) and
are marked as such in their doc comments.
-/

/-- JSON-like runtime values handled by the validator: the JavaScript
values `undefined`, `null`, booleans, numbers (modelled as integers, the
only numbers the claims exercise), strings, arrays and plain objects
(ordered association lists with distinct keys, mirroring JS property
order). -/
inductive Val where
  | vUndef
  | vNull
  | vBool (b : Bool)
  | vNum (n : Int)
  | vStr (s : String)
  | vArr (elems : List Val)
  | vObj (fields : List (String × Val))

/-- Model of lodash `_.isUndefined`. -/
def isUndefinedV : Val → Bool
  | .vUndef => true
  | _ => false

/-- Model of lodash `_.isNull`. -/
def isNullV : Val → Bool
  | .vNull => true
  | _ => false

/-- Model of lodash `_.isPlainObject`: true exactly on plain maps
(arrays, primitives, `null` and `undefined` are not plain objects). -/
def isPlainObjectV : Val → Bool
  | .vObj _ => true
  | _ => false

/-- Model of lodash `_.isArray`. -/
def isArrayV : Val → Bool
  | .vArr _ => true
  | _ => false

/-- Model of lodash `_.isString`, used as a leaf predicate in the README
examples and the spec examples. -/
def isStringF : Val → Bool
  | .vStr _ => true
  | _ => false

/-- Model of lodash `_.isNumber`. -/
def isNumberF : Val → Bool
  | .vNum _ => true
  | _ => false

/-- JavaScript strict equality `===` restricted to the values of `Val`.
Two primitive values are strictly equal when they are the same primitive;
arrays and plain objects compare by reference in JavaScript.  Templates
are built once and candidate objects are supplied fresh per validation
call (spec section 3), so an array or object stored in a template is
never reference-identical to a value in a candidate object; strict
equality on composite values is therefore modelled as `false`. -/
def jsStrictEq : Val → Val → Bool
  | .vUndef, .vUndef => true
  | .vNull, .vNull => true
  | .vBool a, .vBool b => a == b
  | .vNum a, .vNum b => a == b
  | .vStr a, .vStr b => a == b
  | _, _ => false

mutual

/-- Structural (deep) value equality on `Val`, the "value-equality" the
spec speaks about for `choice`. -/
def valueEqb : Val → Val → Bool
  | .vArr xs, .vArr ys => valueEqbList xs ys
  | .vObj xs, .vObj ys => valueEqbFields xs ys
  | a, b => jsStrictEq a b

/-- Structural equality on lists of values. -/
def valueEqbList : List Val → List Val → Bool
  | [], [] => true
  | x :: xs, y :: ys => valueEqb x y && valueEqbList xs ys
  | _, _ => false

/-- Structural equality on field lists. -/
def valueEqbFields : List (String × Val) → List (String × Val) → Bool
  | [], [] => true
  | (k, x) :: xs, (l, y) :: ys => k == l && valueEqb x y && valueEqbFields xs ys
  | _, _ => false

end

/-- A value is primitive when it is not an array and not a plain object
(strict equality and value equality agree exactly on these). -/
def isPrimitive : Val → Bool
  | .vArr _ => false
  | .vObj _ => false
  | _ => true

/-! ## Higher-order combinators (source lines 15-55, 139-242)

These model the source combinators that accept arbitrary predicate
functions; a predicate is a boolean function over `Val`. -/

/-- Source `opt` (lines 15-25): the wrapped predicate is consulted only
when the value is defined. -/
def optF (func : Val → Bool) : Val → Bool := fun v =>
  if isUndefinedV v then true else func v

/-- Source `nullable` (lines 32-42): a null value passes, otherwise the
wrapped predicate decides. -/
def nullableF (func : Val → Bool) : Val → Bool := fun v =>
  if isNullV v then true else func v

/-- Source `exists` (lines 49-55): the returned predicate accepts every
defined value (the `func` argument is ignored by the source). -/
def existsF : Val → Bool := fun v => !(isUndefinedV v)

/-- Source `arr` (lines 139-151): `arr(func, minItems, maxItems)`.
`minItems` defaults to 0 when not supplied; an unsupplied `maxItems`
means no upper bound.  The value must be an array, its length must lie
within the bounds, and every element must satisfy `func`. -/
def arrF (func : Val → Bool) (minItems maxItems : Option Nat) : Val → Bool :=
  fun list =>
    match list with
    | .vArr xs =>
        decide (minItems.getD 0 ≤ xs.length) &&
          (match maxItems with
           | none => true
           | some m => decide (xs.length ≤ m)) &&
          xs.all func
    | _ => false

/-- Source `hash` (lines 161-183): the value must be a plain map whose
entry count lies within the bounds and all of whose values satisfy
`func` (keys are unconstrained). -/
def hashF (func : Val → Bool) (minItems maxItems : Option Nat) : Val → Bool :=
  fun list =>
    match list with
    | .vObj fl =>
        if decide (minItems.getD 0 ≤ fl.length) &&
            (match maxItems with
             | none => true
             | some m => decide (fl.length ≤ m)) then
          fl.all (fun kv => func kv.2)
        else false
    | _ => false

/-- Source `and` (lines 190-202): every predicate in the argument list
must accept the value; the loop returns false at the first failure. -/
def andF (funcs : List (Val → Bool)) : Val → Bool := fun value =>
  funcs.all (fun f => f value)

/-- Source `or` (lines 209-221): some predicate in the argument list
must accept the value; the loop returns true at the first success. -/
def orF (funcs : List (Val → Bool)) : Val → Bool := fun value =>
  funcs.any (fun f => f value)

/-- Model of `Array.prototype.indexOf` as used by `choice` (line 229):
scan for the first element strictly equal (`===`) to the value, return
its index, or -1 when there is none. -/
def indexOfAux (options : List Val) (value : Val) (i : Nat) : Int :=
  match options with
  | [] => -1
  | o :: rest => if jsStrictEq o value then Int.ofNat i else indexOfAux rest value (i + 1)

/-- Source `choice` (lines 227-233): `options.indexOf(value) != -1`. -/
def choiceF (options : List Val) : Val → Bool := fun value =>
  indexOfAux options value 0 != -1

/-! ## isISODate (source lines 239-242)

The source tests the string against the anchored regular expression
`^\d\x7b4\x7d-\d\x7b2\x7d-\d\x7b2\x7dT\d\x7b2\x7d:\d\x7b2\x7d:\d\x7b2\x7d\.\d\x7b3\x7dZ(\+\d\x7b2\x7d:\d\x7b2\x7d)?$`.
The regex is a fixed-shape token sequence (digit classes and literal
characters) with one optional suffix group, modelled by `matchToks`. -/

/-- One token of the fixed-shape regular expression: a digit class
`\d` or a literal character. -/
inductive Tok where
  | dig
  | lit (c : Char)

/-- Match a token sequence against a prefix of the character list,
returning the unconsumed remainder on success. -/
def matchToks : List Tok → List Char → Option (List Char)
  | [], cs => some cs
  | .dig :: ts, c :: cs => if c.isDigit then matchToks ts cs else none
  | .lit a :: ts, c :: cs => if c = a then matchToks ts cs else none
  | _ :: _, [] => none

/-- Token form of the mandatory part of the regex,
`\d\x7b4\x7d-\d\x7b2\x7d-\d\x7b2\x7dT\d\x7b2\x7d:\d\x7b2\x7d:\d\x7b2\x7d\.\d\x7b3\x7dZ`,
written with `List.replicate` for the digit runs. -/
def baseToks : List Tok :=
  List.replicate 4 .dig ++ .lit '-' :: (List.replicate 2 .dig ++ .lit '-' ::
    (List.replicate 2 .dig ++ .lit 'T' :: (List.replicate 2 .dig ++ .lit ':' ::
      (List.replicate 2 .dig ++ .lit ':' :: (List.replicate 2 .dig ++ .lit '.' ::
        (List.replicate 3 .dig ++ [.lit 'Z']))))))

/-- Token form of the optional offset group `\+\d\x7b2\x7d:\d\x7b2\x7d`
(note: the source regex only allows a plus sign here). -/
def offToks : List Tok :=
  .lit '+' :: (List.replicate 2 .dig ++ .lit ':' :: List.replicate 2 .dig)

/-- Anchored test of the full regex: the mandatory part must consume a
prefix and the remainder must be empty or exactly the offset group. -/
def isoTest (cs : List Char) : Bool :=
  match matchToks baseToks cs with
  | none => false
  | some rest => rest.isEmpty || matchToks offToks rest == some ([] : List Char)

/-- Source `isISODate` (lines 239-242): the value is a string and the
string matches the anchored regex. -/
def isISODate (value : Val) : Bool :=
  match value with
  | .vStr s => isoTest s.data
  | _ => false

/-! ## First-order templates and the congruence engine

Template leaves built by the library are functions carrying their
constructor name and arguments for diagnostics; they are modelled by the
first-order type `Tmpl`, whose predicate constructors mirror the source
combinators one for one.  `mapLit`, `arrLit` and `litT` model template
nodes that are not functions: literal nested plain objects, literal
arrays and literal scalars, which only `recObj` converts into
predicates. -/

/-- Base lodash predicates used as template leaves in the README and
spec examples. -/
inductive BasePred where
  | isStringB
  | isNumberB
  | isBooleanB

/-- Semantics of the base lodash predicates. -/
def evalBase : BasePred → Val → Bool
  | .isStringB, .vStr _ => true
  | .isNumberB, .vNum _ => true
  | .isBooleanB, .vBool _ => true
  | _, _ => false

/-- Name of a base lodash predicate (the JavaScript function name used
by `getTemplateDescription`). -/
def basePredName : BasePred → String
  | .isStringB => "isString"
  | .isNumberB => "isNumber"
  | .isBooleanB => "isBoolean"

/-- First-order model of template nodes.  The predicate constructors
model the closures returned by the source combinators: `optT` by `opt`,
`nullableT` by `nullable`, `existsT` by `exists`, `objT` by `obj`
(source lines 66-79), `arrCongrT` by the array matcher built inside
`recObj` (source lines 105-123, stored here with its index-keyed,
already-normalized field list plus the raw element list the source keeps
in `extraDebugArgs`), `arrT` by `arr`, `hashT` by `hash`, `andT` by
`and`, `orT` by `or`, `choiceT` by `choice`, `isoDateT` by `isISODate`
and `baseT` by a bare lodash predicate.  `mapLit`, `arrLit` and `litT`
are the non-function template nodes. -/
inductive Tmpl where
  | optT (f : Tmpl)
  | nullableT (f : Tmpl)
  | existsT
  | objT (fields : List (String × Tmpl)) (loose : Bool)
  | arrCongrT (fields : List (String × Tmpl)) (loose : Bool) (raw : List Tmpl)
  | arrT (f : Tmpl) (minItems maxItems : Option Nat)
  | hashT (f : Tmpl) (minItems maxItems : Option Nat)
  | andT (fs : List Tmpl)
  | orT (fs : List Tmpl)
  | choiceT (options : List Val)
  | isoDateT
  | baseT (p : BasePred)
  | mapLit (fields : List (String × Tmpl))
  | arrLit (xs : List Tmpl)
  | litT (v : Val)

/-- Mismatch records pushed onto the module-level `messages` array by
the emitter listeners (source lines 277-283): the two congruence events
with the payload fields read back by `getInvalidDescription`. -/
inductive Msg where
  | invalidKeys (templateKeys objectKeys : List String)
  | invalidValue (key : String) (templateNode : Tmpl) (objectNode : Val)

/-- JavaScript property read `ofl[k]` on a plain object modelled as an
association list with distinct keys; a missing key reads `undefined`. -/
def lookupVal : List (String × Val) → String → Val
  | [], _ => .vUndef
  | (k2, v) :: rest, k => if k2 = k then v else lookupVal rest k

/-- Conversion of an array to an index-keyed object, as done for the
candidate value inside the array matcher of `recObj` (source lines
112-115): element i becomes the value of key `toString i`. -/
def indexVals : List Val → Nat → List (String × Val)
  | [], _ => []
  | x :: xs, i => (toString i, x) :: indexVals xs (i + 1)

/-! ## Template normalization (source `recObj`, lines 88-129)

`recObj` walks the template map in place: every value that is a plain
object is replaced by the predicate `recObj` returns for it, and every
value that is an array is replaced by an array-matcher closure; all
other values are left untouched.  `normT`/`normFields`/`normIdx` below
compute the tree the template holds after this in-place rewrite (the
source performs the normalization of array elements lazily inside the
closure; the result is the same tree). -/

mutual

/-- Normalized form of one template value under `recObj`: a literal
plain object becomes the `obj` predicate over its normalized fields, a
literal array becomes the array matcher over its index-keyed normalized
elements, and anything else is left unchanged. -/
def normT : Tmpl → Bool → Tmpl
  | .mapLit sub, loose => .objT (normFields sub loose) loose
  | .arrLit xs, loose => .arrCongrT (normIdx xs 0 loose) loose xs
  | t, _ => t

/-- Normalization of all values of a template map (the in-place loop of
`recObj`, source lines 92-127). -/
def normFields : List (String × Tmpl) → Bool → List (String × Tmpl)
  | [], _ => []
  | (k, t) :: rest, loose => (k, normT t loose) :: normFields rest loose

/-- Index-keyed normalized conversion of a literal template array
(source lines 99-103 build the index-keyed object, whose values are then
normalized by the recursive `recObj` call inside the matcher). -/
def normIdx : List Tmpl → Nat → Bool → List (String × Tmpl)
  | [], _, _ => []
  | x :: xs, i, loose => (toString i, normT x loose) :: normIdx xs (i + 1) loose

end

/-- Source `recObj` entry (lines 88-91, 128): a non-plain-object
argument throws the string `recObj must be called on a plain object`;
a plain-object template is normalized in place and wrapped with `obj`. -/
def recObjE (template : Tmpl) (loose : Bool) : Except String Tmpl :=
  match template with
  | .mapLit fields => .ok (.objT (normFields fields loose) loose)
  | _ => .error "recObj must be called on a plain object"

/-! ## The congruence engine

The source delegates to `congruence.congruent` / `congruence.similar`
with the shared emitter (source lines 72-74, 264-268).  The congruence
module is not part of this repository, so the engine is modelled from
the spec.  Evaluation returns the boolean verdict together with the
list of mismatch records emitted during the evaluation, in emission
order (the emitter appends each record to the module-level `messages`
array). -/

mutual

/-- Evaluation of a template node, used as a predicate, on a value;
returns the verdict and the emitted mismatch records.  Predicate cases
mirror the source combinator closures; `objT` checks
`_.isPlainObject` and then runs the engine (source lines 67-76);
`arrCongrT` checks `_.isArray`, converts the candidate array to an
index-keyed object and runs the engine on it (source lines 105-118).
Calling a non-function node (`mapLit`, `arrLit`, `litT`) as a predicate
is a JavaScript type error and cannot occur in a well-formed template;
such nodes evaluate to false here. -/
def evalT : Tmpl → Val → Bool × List Msg
  | .optT f, v => match v with
      | .vUndef => (true, [])
      | v => evalT f v
  | .nullableT f, v => match v with
      | .vNull => (true, [])
      | v => evalT f v
  | .existsT, v => (!(isUndefinedV v), [])
  | .objT fields loose, v => match v with
      | .vObj ofl => congruentM fields ofl loose
      | _ => (false, [])
  | .arrCongrT fields loose _, v => match v with
      | .vArr xs => congruentM fields (indexVals xs 0) loose
      | _ => (false, [])
  | .arrT f mi ma, v => match v with
      | .vArr xs =>
          if decide (mi.getD 0 ≤ xs.length) &&
              (match ma with | none => true | some m => decide (xs.length ≤ m)) then
            evalEvery f xs
          else (false, [])
      | _ => (false, [])
  | .hashT f mi ma, v => match v with
      | .vObj fl =>
          if decide (mi.getD 0 ≤ fl.length) &&
              (match ma with | none => true | some m => decide (fl.length ≤ m)) then
            evalEach f fl
          else (false, [])
      | _ => (false, [])
  | .andT fs, v => evalAnd fs v
  | .orT fs, v => evalOr fs v
  | .choiceT options, v => (choiceF options v, [])
  | .isoDateT, v => (isISODate v, [])
  | .baseT p, v => (evalBase p v, [])
  | .mapLit _, _ => (false, [])
  | .arrLit _, _ => (false, [])
  | .litT _, _ => (false, [])

/-- Modelled from the spec: the congruence engine over a template map
and the field list of a candidate plain object (spec section 4.3, steps
2-5; the congruence npm module implementing this is not under src/).
First the key sets are compared: in exact mode the two key sets must be
identical as sets, in loose mode every template key must be present in
the object (extra object keys are tolerated); a key-set difference
emits `invalid:keys` with the two key lists and fails the call.  Then
the per-key checks of `congruentKeys` run. -/
def congruentM (fields : List (String × Tmpl)) (ofl : List (String × Val)) (loose : Bool) :
    Bool × List Msg :=
  let tks := fields.map Prod.fst
  let oks := ofl.map Prod.fst
  let keysOk := if loose then tks.all (oks.contains ·)
                else tks.all (oks.contains ·) && oks.all (tks.contains ·)
  if keysOk then congruentKeys fields ofl loose
  else (false, [Msg.invalidKeys tks oks])

/-- Modelled from the spec: the per-key pass of the congruence engine
(spec section 4.3, step 4).  Template keys are visited in template
order; a nested literal template map recurses into the engine on the
corresponding sub-object (in the same mode), and any other template
value is invoked as a predicate.  The first failing key stops the walk:
a failing predicate emits `invalid:value` with the key, the template
node and the object node (after whatever records the predicate itself
emitted); a failing nested map has already emitted its own record.
Records emitted by succeeding predicates are retained as well, since
the emitter log is append-only within a call. -/
def congruentKeys (fields : List (String × Tmpl)) (ofl : List (String × Val)) (loose : Bool) :
    Bool × List Msg :=
  match fields with
  | [] => (true, [])
  | (k, t) :: rest =>
      let v := lookupVal ofl k
      match t with
      | .mapLit sub =>
          let r := (match v with
            | .vObj sofl => congruentM sub sofl loose
            | _ => ((false : Bool), ([] : List Msg)))
          if r.1 then
            let r2 := congruentKeys rest ofl loose
            (r2.1, r.2 ++ r2.2)
          else (false, r.2)
      | t =>
          let r := evalT t v
          if r.1 then
            let r2 := congruentKeys rest ofl loose
            (r2.1, r.2 ++ r2.2)
          else (false, r.2 ++ [Msg.invalidValue k t v])

/-- Source `and` loop (lines 192-199) at the template level: stop at
the first failing conjunct. -/
def evalAnd : List Tmpl → Val → Bool × List Msg
  | [], _ => (true, [])
  | f :: rest, v =>
      let r := evalT f v
      if r.1 then
        let r2 := evalAnd rest v
        (r2.1, r.2 ++ r2.2)
      else (false, r.2)

/-- Source `or` loop (lines 211-218) at the template level: stop at the
first succeeding disjunct; records emitted by failed disjuncts stay in
the log. -/
def evalOr : List Tmpl → Val → Bool × List Msg
  | [], _ => (false, [])
  | f :: rest, v =>
      let r := evalT f v
      if r.1 then (true, r.2)
      else
        let r2 := evalOr rest v
        (r2.1, r.2 ++ r2.2)

/-- lodash `_.every` as used by `arr` (line 147): stop at the first
failing element. -/
def evalEvery : Tmpl → List Val → Bool × List Msg
  | _, [] => (true, [])
  | f, x :: xs =>
      let r := evalT f x
      if r.1 then
        let r2 := evalEvery f xs
        (r2.1, r.2 ++ r2.2)
      else (false, r.2)

/-- lodash `_.each` as used by `hash` (lines 173-177): every entry is
visited even after a failure; the verdict is the conjunction. -/
def evalEach : Tmpl → List (String × Val) → Bool × List Msg
  | _, [] => (true, [])
  | f, (_, x) :: rest =>
      let r := evalT f x
      let r2 := evalEach f rest
      (r.1 && r2.1, r.2 ++ r2.2)

end

/-- Source `validateObject` (lines 254-270).  The module-level
`messages` array is modelled by explicit state: `prior` is its content
before the call, and the returned list is its content when the call
ends.  The source assigns `messages = []` first, so `prior` is
discarded whatever happens; then a non-plain-object candidate fails
with no record; otherwise the engine runs, through `recObj` first when
`recursive` is set (the template argument is a plain map, given here by
its field list, which is the only case the spec defines for the entry
point). -/
def validateObjectS (_prior : List Msg) (fields : List (String × Tmpl)) (object : Val)
    (loose recursive : Bool) : Bool × List Msg :=
  match object with
  | .vObj ofl =>
      if recursive then congruentM (normFields fields loose) ofl loose
      else congruentM fields ofl loose
  | _ => (false, [])

/-! ## Mismatch reporting (source lines 289-359) -/

/-- lodash `_.difference(a, b)`: the elements of `a` that do not occur
in `b`, in order. -/
def jsDifference (a b : List String) : List String :=
  a.filter (fun x => !(b.contains x))

/-- `Array.prototype.join` with a comma separator. -/
def joinComma (xs : List String) : String :=
  String.intercalate "," xs

/-- JSON string escaping for the characters the escape actually
changes here (quote and backslash). -/
def jsonEscape (cs : List Char) : String :=
  match cs with
  | [] => ""
  | c :: rest =>
      (if c = '"' then "\\\"" else if c = '\\' then "\\\\" else String.singleton c) ++
        jsonEscape rest

mutual

/-- Model of `JSON.stringify` on `Val` as used by the reporter (source
lines 328 and 351); `undefined` stringifies to the string the
surrounding string concatenation produces. -/
def jsonStr : Val → String
  | .vUndef => "undefined"
  | .vNull => "null"
  | .vBool true => "true"
  | .vBool false => "false"
  | .vNum n => toString n
  | .vStr s => "\"" ++ jsonEscape s.data ++ "\""
  | .vArr xs => "[" ++ joinComma (jsonStrList xs) ++ "]"
  | .vObj fl => "\x7b" ++ joinComma (jsonStrFields fl) ++ "\x7d"

/-- JSON rendering of array elements. -/
def jsonStrList : List Val → List String
  | [] => []
  | x :: xs => jsonStr x :: jsonStrList xs

/-- JSON rendering of object fields (keys are quoted). -/
def jsonStrFields : List (String × Val) → List String
  | [] => []
  | (k, v) :: rest => ("\"" ++ jsonEscape k.data ++ "\":" ++ jsonStr v) :: jsonStrFields rest

end

mutual

/-- Source `getTemplateDescription` (lines 297-331) on template nodes.
A combinator closure renders as its function name applied to the
rendered constructor arguments (`f.args`, plus `extraDebugArgs` for the
`recObj` array matcher, which has no `args` of its own); a literal
plain object renders as `key: description` pairs in braces; a literal
array renders its elements in brackets; any other value renders through
`JSON.stringify`.  `objT` renders its `loose` argument only when it was
given (the library itself always calls `obj(template)` or
`obj(template, true)`). -/
def describeTmpl : Tmpl → String
  | .optT f => "optional(" ++ describeTmpl f ++ ")"
  | .nullableT f => "nullable(" ++ describeTmpl f ++ ")"
  | .existsT => "exists()"
  | .objT fields loose =>
      "object(" ++ describeMapInner fields ++ (if loose then ",true" else "") ++ ")"
  | .arrCongrT _ _ raw => "array([" ++ joinComma (describeList raw) ++ "])"
  | .arrT f mi ma =>
      "arr(" ++ describeTmpl f ++
        (match mi, ma with
         | none, none => ""
         | some a, none => "," ++ toString a
         | none, some b => ",0," ++ toString b
         | some a, some b => "," ++ toString a ++ "," ++ toString b) ++ ")"
  | .hashT f mi ma =>
      "hash(" ++ describeTmpl f ++
        (match mi, ma with
         | none, none => ""
         | some a, none => "," ++ toString a
         | none, some b => ",0," ++ toString b
         | some a, some b => "," ++ toString a ++ "," ++ toString b) ++ ")"
  | .andT fs => "and(" ++ joinComma (describeList fs) ++ ")"
  | .orT fs => "or(" ++ joinComma (describeList fs) ++ ")"
  | .choiceT options => "choice([" ++ joinComma (jsonStrList options) ++ "])"
  | .isoDateT => "isISODate()"
  | .baseT p => basePredName p ++ "()"
  | .mapLit fields => describeMapInner fields
  | .arrLit xs => "[" ++ joinComma (describeList xs) ++ "]"
  | .litT v => jsonStr v

/-- Rendering of a template map in braces with `key: description`
items (source lines 315-320). -/
def describeMapInner (fields : List (String × Tmpl)) : String :=
  "\x7b" ++ joinComma (describeFields fields) ++ "\x7d"

/-- Rendered `key: description` items of a template map. -/
def describeFields : List (String × Tmpl) → List String
  | [] => []
  | (k, t) :: rest => (k ++ ": " ++ describeTmpl t) :: describeFields rest

/-- Rendered descriptions of a list of template nodes. -/
def describeList : List Tmpl → List String
  | [] => []
  | t :: ts => describeTmpl t :: describeList ts

end

/-- Rendering of one mismatch record, as done by the `switch` in
`getInvalidDescription` (source lines 346-357). -/
def renderMsg : Msg → String
  | .invalidKeys tks oks =>
      "invalid keys, expecting [" ++ joinComma tks ++ "] but got [" ++ joinComma oks ++
        "] (unexpected: [" ++ joinComma (jsDifference oks tks) ++
        "]) (missing: [" ++ joinComma (jsDifference tks oks) ++ "])"
  | .invalidValue k tn obn =>
      "invalid value for key \x27" ++ k ++ "\x27: \x27" ++ jsonStr obn ++
        "\x27; expectation: " ++ describeTmpl tn

/-- Source `getInvalidDescription` (lines 337-359) over the content of
the `messages` array: null when the array is empty, otherwise the
rendering of `messages[0]` (the record the source reads, despite the
variable name `lastMessage`). -/
def getInvalidDescriptionM (msgs : List Msg) : Option String :=
  match msgs with
  | [] => none
  | m :: _ => some (renderMsg m)

/-! ## Spec-side shape of the isISODate pattern

These definitions transcribe the spec sentence describing the
`isISODate` pattern (spec section 4.1): they are the specification side
of the refinement claim about `isISODate` and are deliberately written
from the spec wording, not from the source regex. -/

/-- A run of exactly n decimal digits. -/
def DigitRun (cs : List Char) (n : Nat) : Prop :=
  cs.length = n ∧ ∀ c ∈ cs, c.isDigit = true

instance (cs : List Char) (n : Nat) : Decidable (DigitRun cs n) :=
  inferInstanceAs (Decidable (cs.length = n ∧ ∀ c ∈ cs, c.isDigit = true))

/-- Offset suffix shape from the spec sentence: a sign followed by a
two-digit hour, a colon and a two-digit minute.  The claim allows both
signs; the source regex only matches a plus sign, which is the
`allowMinus = false` instance. -/
def IsoOffset (allowMinus : Bool) (off : List Char) : Prop :=
  ∃ sgn oh om, off = sgn :: (oh ++ ':' :: om) ∧
    (sgn = '+' ∨ (allowMinus = true ∧ sgn = '-')) ∧ DigitRun oh 2 ∧ DigitRun om 2

/-- The string shape the claim describes for `isISODate`: four-digit
year, two-digit month, day, hour, minute and second, three-digit
millisecond, the literal separators, and an optional offset suffix. -/
def IsoShape (allowMinus : Bool) (cs : List Char) : Prop :=
  ∃ y mo d h mi se ms off,
    cs = y ++ '-' :: (mo ++ '-' :: (d ++ 'T' :: (h ++ ':' :: (mi ++ ':' :: (se ++ '.' :: (ms ++ 'Z' :: off)))))) ∧
    DigitRun y 4 ∧ DigitRun mo 2 ∧ DigitRun d 2 ∧ DigitRun h 2 ∧
    DigitRun mi 2 ∧ DigitRun se 2 ∧ DigitRun ms 3 ∧
    (off = [] ∨ IsoOffset allowMinus off)

/-! ## Small helper definitions used by the theorems -/

/-- Key list of a template map. -/
def fieldKeys (fields : List (String × Tmpl)) : List String :=
  fields.map Prod.fst

/-- Key list of a candidate object. -/
def valKeys (ofl : List (String × Val)) : List String :=
  ofl.map Prod.fst

/-- Key-set equality as the exact-mode engine checks it: mutual
containment of the two key lists. -/
def keySetEq (a b : List String) : Bool :=
  a.all (b.contains ·) && b.all (a.contains ·)

/-- Template nodes that `recObj` rewrites in place: literal plain
objects and literal arrays. -/
def isLitNode : Tmpl → Bool
  | .mapLit _ => true
  | .arrLit _ => true
  | _ => false

/-- Template nodes that are plain objects in the sense of
`_.isPlainObject` (combinator closures are functions, literal arrays
are arrays, scalars are not objects). -/
def isPlainTmpl : Tmpl → Bool
  | .mapLit _ => true
  | _ => false

/-! ## Helper lemmas: characterization of the isISODate regex -/

theorem matchToks_nil (cs rest : List Char) :
    matchToks [] cs = some rest ↔ rest = cs := by
  simp [matchToks, eq_comm]

theorem lit_match (a : Char) (ts : List Tok) (cs rest : List Char) :
    matchToks (.lit a :: ts) cs = some rest ↔
      ∃ cs2, cs = a :: cs2 ∧ matchToks ts cs2 = some rest := by
  cases cs with
  | nil => simp [matchToks]
  | cons c cs2 =>
    simp only [matchToks]
    by_cases hca : c = a
    · subst hca
      simp
    · simp [hca]

theorem dig_match (ts : List Tok) (cs rest : List Char) :
    matchToks (.dig :: ts) cs = some rest ↔
      ∃ c cs2, cs = c :: cs2 ∧ c.isDigit = true ∧ matchToks ts cs2 = some rest := by
  cases cs with
  | nil => simp [matchToks]
  | cons c cs2 =>
    simp only [matchToks]
    by_cases hd : c.isDigit
    · simp only [hd, if_true]
      constructor
      · intro h
        exact ⟨c, cs2, rfl, hd, h⟩
      · rintro ⟨c1, cs21, heq, hd1, h⟩
        rcases List.cons.inj heq with ⟨rfl, rfl⟩
        exact h
    · simp only [hd, if_false]
      constructor
      · intro h
        exact absurd h (by simp)
      · rintro ⟨c3, cs3, heq, hd3, hm⟩
        rcases List.cons.inj heq with ⟨rfl, rfl⟩
        exact absurd hd3 (by simp [hd])

theorem digRun_match (n : Nat) (ts : List Tok) (cs rest : List Char) :
    matchToks (List.replicate n .dig ++ ts) cs = some rest ↔
      ∃ ds cs2, cs = ds ++ cs2 ∧ DigitRun ds n ∧ matchToks ts cs2 = some rest := by
  induction n generalizing cs with
  | zero =>
    constructor
    · intro h
      exact ⟨[], cs, by simp, ⟨rfl, by simp⟩, h⟩
    · rintro ⟨ds, cs2, rfl, ⟨hlen, hds⟩, hm⟩
      rcases List.length_eq_zero.mp hlen with rfl
      simpa using hm
  | succ n ih =>
    rw [List.replicate_succ, List.cons_append, dig_match]
    constructor
    · rintro ⟨c, cs2, rfl, hd, hm⟩
      rcases (ih cs2).mp hm with ⟨ds, cs3, rfl, ⟨hlen, hds⟩, hm2⟩
      refine ⟨c :: ds, cs3, by simp, ⟨by simp [hlen], ?_⟩, hm2⟩
      intro x hx
      rcases List.mem_cons.mp hx with rfl | hx2
      · exact hd
      · exact hds x hx2
    · rintro ⟨ds, cs2, rfl, ⟨hlen, hds⟩, hm⟩
      cases ds with
      | nil => simp at hlen
      | cons d ds2 =>
        refine ⟨d, ds2 ++ cs2, by simp, hds d (by simp), ?_⟩
        exact (ih (ds2 ++ cs2)).mpr ⟨ds2, cs2, rfl, ⟨by simpa using hlen, fun x hx => hds x (by simp [hx])⟩, hm⟩

theorem digRun_match_end (n : Nat) (cs rest : List Char) :
    matchToks (List.replicate n .dig) cs = some rest ↔
      ∃ ds, cs = ds ++ rest ∧ DigitRun ds n := by
  have h0 : List.replicate n Tok.dig = List.replicate n Tok.dig ++ [] := by simp
  rw [h0, digRun_match]
  constructor
  · rintro ⟨ds, cs2, rfl, hds, hm⟩
    rcases (matchToks_nil _ _).mp hm with rfl
    exact ⟨ds, rfl, hds⟩
  · rintro ⟨ds, rfl, hds⟩
    exact ⟨ds, rest, rfl, hds, (matchToks_nil _ _).mpr rfl⟩

theorem match_base (cs rest : List Char) :
    matchToks baseToks cs = some rest ↔
      ∃ y mo d h mi se ms,
        cs = y ++ '-' :: (mo ++ '-' :: (d ++ 'T' :: (h ++ ':' :: (mi ++ ':' :: (se ++ '.' :: (ms ++ 'Z' :: rest)))))) ∧
        DigitRun y 4 ∧ DigitRun mo 2 ∧ DigitRun d 2 ∧ DigitRun h 2 ∧
        DigitRun mi 2 ∧ DigitRun se 2 ∧ DigitRun ms 3 := by
  constructor
  · intro h
    rw [show baseToks = List.replicate 4 .dig ++ .lit '-' :: (List.replicate 2 .dig ++ .lit '-' ::
      (List.replicate 2 .dig ++ .lit 'T' :: (List.replicate 2 .dig ++ .lit ':' ::
        (List.replicate 2 .dig ++ .lit ':' :: (List.replicate 2 .dig ++ .lit '.' ::
          (List.replicate 3 .dig ++ [.lit 'Z'])))))) from rfl] at h
    rcases (digRun_match _ _ _ _).mp h with ⟨y, c1, rfl, hy, h⟩
    rcases (lit_match _ _ _ _).mp h with ⟨c2, rfl, h⟩
    rcases (digRun_match _ _ _ _).mp h with ⟨mo, c3, rfl, hmo, h⟩
    rcases (lit_match _ _ _ _).mp h with ⟨c4, rfl, h⟩
    rcases (digRun_match _ _ _ _).mp h with ⟨d, c5, rfl, hd, h⟩
    rcases (lit_match _ _ _ _).mp h with ⟨c6, rfl, h⟩
    rcases (digRun_match _ _ _ _).mp h with ⟨hh, c7, rfl, hhh, h⟩
    rcases (lit_match _ _ _ _).mp h with ⟨c8, rfl, h⟩
    rcases (digRun_match _ _ _ _).mp h with ⟨mi, c9, rfl, hmi, h⟩
    rcases (lit_match _ _ _ _).mp h with ⟨c10, rfl, h⟩
    rcases (digRun_match _ _ _ _).mp h with ⟨se, c11, rfl, hse, h⟩
    rcases (lit_match _ _ _ _).mp h with ⟨c12, rfl, h⟩
    rcases (digRun_match _ _ _ _).mp h with ⟨ms, c13, rfl, hms, h⟩
    rcases (lit_match _ _ _ _).mp h with ⟨c14, rfl, h⟩
    rcases (matchToks_nil _ _).mp h with rfl
    exact ⟨y, mo, d, hh, mi, se, ms, rfl, hy, hmo, hd, hhh, hmi, hse, hms⟩
  · rintro ⟨y, mo, d, hh, mi, se, ms, rfl, hy, hmo, hd, hhh, hmi, hse, hms⟩
    rw [show baseToks = List.replicate 4 .dig ++ .lit '-' :: (List.replicate 2 .dig ++ .lit '-' ::
      (List.replicate 2 .dig ++ .lit 'T' :: (List.replicate 2 .dig ++ .lit ':' ::
        (List.replicate 2 .dig ++ .lit ':' :: (List.replicate 2 .dig ++ .lit '.' ::
          (List.replicate 3 .dig ++ [.lit 'Z'])))))) from rfl]
    refine (digRun_match _ _ _ _).mpr ⟨y, _, rfl, hy, ?_⟩
    refine (lit_match _ _ _ _).mpr ⟨_, rfl, ?_⟩
    refine (digRun_match _ _ _ _).mpr ⟨mo, _, rfl, hmo, ?_⟩
    refine (lit_match _ _ _ _).mpr ⟨_, rfl, ?_⟩
    refine (digRun_match _ _ _ _).mpr ⟨d, _, rfl, hd, ?_⟩
    refine (lit_match _ _ _ _).mpr ⟨_, rfl, ?_⟩
    refine (digRun_match _ _ _ _).mpr ⟨hh, _, rfl, hhh, ?_⟩
    refine (lit_match _ _ _ _).mpr ⟨_, rfl, ?_⟩
    refine (digRun_match _ _ _ _).mpr ⟨mi, _, rfl, hmi, ?_⟩
    refine (lit_match _ _ _ _).mpr ⟨_, rfl, ?_⟩
    refine (digRun_match _ _ _ _).mpr ⟨se, _, rfl, hse, ?_⟩
    refine (lit_match _ _ _ _).mpr ⟨_, rfl, ?_⟩
    refine (digRun_match _ _ _ _).mpr ⟨ms, _, rfl, hms, ?_⟩
    refine (lit_match _ _ _ _).mpr ⟨_, rfl, ?_⟩
    exact (matchToks_nil _ _).mpr rfl

theorem match_off (cs : List Char) :
    matchToks offToks cs = some [] ↔
      ∃ oh om, cs = '+' :: (oh ++ ':' :: om) ∧ DigitRun oh 2 ∧ DigitRun om 2 := by
  constructor
  · intro h
    rw [show offToks = .lit '+' :: (List.replicate 2 .dig ++ .lit ':' :: List.replicate 2 .dig) from rfl] at h
    rcases (lit_match _ _ _ _).mp h with ⟨c1, rfl, h⟩
    rcases (digRun_match _ _ _ _).mp h with ⟨oh, c2, rfl, hoh, h⟩
    rcases (lit_match _ _ _ _).mp h with ⟨c3, rfl, h⟩
    rcases (digRun_match_end _ _ _).mp h with ⟨om, heq, hom⟩
    rw [List.append_nil] at heq
    exact ⟨oh, c3, rfl, hoh, by rw [heq]; exact hom⟩
  · rintro ⟨oh, om, rfl, hoh, hom⟩
    rw [show offToks = .lit '+' :: (List.replicate 2 .dig ++ .lit ':' :: List.replicate 2 .dig) from rfl]
    refine (lit_match _ _ _ _).mpr ⟨_, rfl, ?_⟩
    refine (digRun_match _ _ _ _).mpr ⟨oh, _, rfl, hoh, ?_⟩
    refine (lit_match _ _ _ _).mpr ⟨_, rfl, ?_⟩
    exact (digRun_match_end _ _ _).mpr ⟨om, by simp, hom⟩

theorem isoTest_eq (cs rest : List Char) (h : matchToks baseToks cs = some rest) :
    isoTest cs = (rest.isEmpty || matchToks offToks rest == some ([] : List Char)) := by
  unfold isoTest
  rw [h]

theorem isoTest_iff (cs : List Char) : isoTest cs = true ↔ IsoShape false cs := by
  constructor
  · intro h
    unfold isoTest at h
    cases hm : matchToks baseToks cs with
    | none => rw [hm] at h; cases h
    | some rest =>
      rw [hm] at h
      rcases (match_base cs rest).mp hm with ⟨y, mo, d, hh, mi, se, ms, rfl, hy, hmo, hd, hhh, hmi, hse, hms⟩
      rcases Bool.or_eq_true_iff.mp h with hrest | hoffm
      · exact ⟨y, mo, d, hh, mi, se, ms, rest, rfl, hy, hmo, hd, hhh, hmi, hse, hms,
          Or.inl (List.isEmpty_iff.mp hrest)⟩
      · have hoff := (match_off rest).mp (by simpa using hoffm)
        rcases hoff with ⟨oh, om, rfl, hoh, hom⟩
        exact ⟨y, mo, d, hh, mi, se, ms, _, rfl, hy, hmo, hd, hhh, hmi, hse, hms,
          Or.inr ⟨'+', oh, om, rfl, Or.inl rfl, hoh, hom⟩⟩
  · rintro ⟨y, mo, d, hh, mi, se, ms, off, rfl, hy, hmo, hd, hhh, hmi, hse, hms, hoff⟩
    rw [isoTest_eq _ off ((match_base _ off).mpr ⟨y, mo, d, hh, mi, se, ms, rfl, hy, hmo, hd, hhh, hmi, hse, hms⟩)]
    rcases hoff with rfl | ⟨sgn, oh, om, rfl, hsgn, hoh, hom⟩
    · simp
    · rcases hsgn with rfl | ⟨hfalse, _⟩
      · rw [(match_off _).mpr ⟨oh, om, rfl, hoh, hom⟩]
        simp
      · cases hfalse


/-! ## Helper lemmas: choice, normalization and engine extension -/

theorem indexOfAux_ne (opts : List Val) (v : Val) (i : Nat) :
    (indexOfAux opts v i != -1) = opts.any (fun o => jsStrictEq o v) := by
  induction opts generalizing i with
  | nil => simp [indexOfAux]
  | cons o rest ih =>
    simp only [indexOfAux, List.any_cons]
    by_cases h : jsStrictEq o v
    · simp [h]
    · simp [h, ih]

theorem jsStrictEq_eq_valueEqb (o v : Val) :
    jsStrictEq o v = (isPrimitive v && valueEqb v o) := by
  cases o <;> cases v <;>
    simp [jsStrictEq, valueEqb, isPrimitive, BEq.comm]

theorem normT_idem (t : Tmpl) (loose : Bool) :
    normT (normT t loose) loose = normT t loose := by
  cases t <;> rfl

theorem normFields_idem (fl : List (String × Tmpl)) (loose : Bool) :
    normFields (normFields fl loose) loose = normFields fl loose := by
  induction fl with
  | nil => rfl
  | cons p rest ih =>
    obtain ⟨k, t⟩ := p
    simp [normFields, normT_idem, ih]

theorem normT_eq_self_iff (t : Tmpl) (loose : Bool) :
    normT t loose = t ↔ isLitNode t = false := by
  cases t with
  | mapLit sub =>
    constructor
    · intro h
      exact absurd h (by simp [normT])
    · intro h
      cases h
  | arrLit xs =>
    constructor
    · intro h
      exact absurd h (by simp [normT])
    · intro h
      cases h
  | _ => simp [normT, isLitNode]

theorem normFields_eq_self_iff (fl : List (String × Tmpl)) (loose : Bool) :
    normFields fl loose = fl ↔ ∀ p ∈ fl, isLitNode p.2 = false := by
  induction fl with
  | nil => simp [normFields]
  | cons p rest ih =>
    obtain ⟨k, t⟩ := p
    simp only [normFields, List.cons.injEq, List.mem_cons, Prod.mk.injEq]
    constructor
    · rintro ⟨⟨-, ht⟩, hrest⟩
      intro q hq
      rcases hq with rfl | hq
      · exact (normT_eq_self_iff t loose).mp ht
      · exact (ih.mp hrest) q hq
    · intro h
      refine ⟨⟨trivial, (normT_eq_self_iff t loose).mpr (h (k, t) (Or.inl rfl))⟩, ?_⟩
      exact ih.mpr (fun q hq => h q (Or.inr hq))

theorem getInvalidDescriptionM_head (msgs : List Msg) :
    getInvalidDescriptionM msgs = msgs.head?.map renderMsg := by
  cases msgs <;> rfl

theorem lookupVal_cons_ne (kx : String) (vx : Val) (ofl : List (String × Val)) (k : String)
    (h : kx ≠ k) : lookupVal ((kx, vx) :: ofl) k = lookupVal ofl k := by
  simp [lookupVal, h]

theorem congruentKeys_extend (fields : List (String × Tmpl)) (kx : String) (vx : Val)
    (ofl : List (String × Val)) (loose : Bool) (h : ∀ p ∈ fields, p.1 ≠ kx) :
    congruentKeys fields ((kx, vx) :: ofl) loose = congruentKeys fields ofl loose := by
  induction fields with
  | nil => simp [congruentKeys]
  | cons p rest ih =>
    obtain ⟨k, t⟩ := p
    have hk : kx ≠ k := fun he => (h (k, t) (by simp)) (by simp [he])
    have ihh : congruentKeys rest ((kx, vx) :: ofl) loose = congruentKeys rest ofl loose :=
      ih (fun q hq => h q (by simp [hq]))
    cases t <;> simp only [congruentKeys, lookupVal_cons_ne kx vx ofl k hk, ihh]

/-- Extending a key list with a key that occurs in none of the checked
keys does not change the key-containment check. -/
theorem containsAll_extend (tks oks : List String) (kx : String) (h : kx ∉ tks) :
    tks.all ((kx :: oks).contains ·) = tks.all (oks.contains ·) := by
  induction tks with
  | nil => rfl
  | cons k rest ih =>
    have h1 : kx ∉ rest := fun hm => h (by simp [hm])
    have h2 : k ≠ kx := fun he => h (by simp [he])
    simp only [List.all_cons]
    rw [ih h1]
    congr 1
    simp [List.contains_cons, h2]

/-- C10: called with no arguments, `and()` returns the constant-true
predicate and `or()` returns the constant-false predicate. -/
theorem claimC10 : ∀ v : Val, andF [] v = true ∧ orF [] v = false :=
  fun _ => ⟨rfl, rfl⟩

/-- C5: `arr(f, min, max)` accepts exactly the arrays whose length lies
within the bounds (min defaulting to 0, max unbounded when absent) and
all of whose elements satisfy f; includes the spec examples for
`arr(isString, 1, 3)`. -/
theorem claimC5 :
    (∀ (f : Val → Bool) (mi ma : Option Nat) (v : Val),
      arrF f mi ma v = true ↔
        ∃ xs, v = Val.vArr xs ∧ mi.getD 0 ≤ xs.length ∧
          (∀ m, ma = some m → xs.length ≤ m) ∧ ∀ x ∈ xs, f x = true)
    ∧ arrF isStringF (some 1) (some 3) (Val.vArr [Val.vStr "a", Val.vStr "b"]) = true
    ∧ arrF isStringF (some 1) (some 3) (Val.vArr []) = false
    ∧ arrF isStringF (some 1) (some 3)
        (Val.vArr [Val.vStr "a", Val.vStr "b", Val.vStr "c", Val.vStr "d"]) = false
    ∧ arrF isStringF (some 1) (some 3) (Val.vArr [Val.vStr "a", Val.vNum 5]) = false := by
  refine ⟨?_, by decide, by decide, by decide, by decide⟩
  intro f mi ma v
  cases v with
  | vArr xs =>
    cases ma with
    | none => simp [arrF, List.all_eq_true]
    | some m => simp [arrF, List.all_eq_true, and_assoc]
  | vUndef => simp [arrF]
  | vNull => simp [arrF]
  | vBool b => simp [arrF]
  | vNum n => simp [arrF]
  | vStr s => simp [arrF]
  | vObj fl => simp [arrF]

/-- C5 witness: the accepting direction of the characterization at a
concrete array. -/
theorem claimC5Witness : arrF isStringF (some 1) (some 3) (Val.vArr [Val.vStr "a"]) = true :=
  (claimC5.1 isStringF (some 1) (some 3) (Val.vArr [Val.vStr "a"])).mpr
    ⟨[Val.vStr "a"], rfl, by decide, fun m hm => by cases hm; decide, by decide⟩

/-- C6 counterexample: an empty plain object is value-equal to the
single option, yet `choice` rejects it, because `indexOf` compares with
strict (reference) equality. -/
theorem claimC6Counterexample :
    choiceF [Val.vObj []] (Val.vObj []) = false ∧
    valueEqb (Val.vObj []) (Val.vObj []) = true :=
  ⟨rfl, rfl⟩

/-- C6 (amended): `choice(options)` accepts exactly the primitive
values that are value-equal to some option; composite values are always
rejected because `indexOf` uses strict equality. -/
theorem claimC6 : ∀ (options : List Val) (value : Val),
    choiceF options value = true ↔
      (isPrimitive value = true ∧ ∃ o ∈ options, valueEqb value o = true) := by
  intro opts v
  unfold choiceF
  rw [indexOfAux_ne]
  simp only [jsStrictEq_eq_valueEqb, List.any_eq_true, Bool.and_eq_true]
  constructor
  · rintro ⟨o, ho, hp, hv⟩
    exact ⟨hp, o, ho, hv⟩
  · rintro ⟨hp, o, ho, hv⟩
    exact ⟨o, ho, hp, hv⟩

/-- C6 witness: the spec example, a primitive choice that matches. -/
theorem claimC6Witness : choiceF [Val.vStr "x", Val.vStr "y"] (Val.vStr "x") = true :=
  (claimC6 [Val.vStr "x", Val.vStr "y"] (Val.vStr "x")).mpr
    ⟨rfl, Val.vStr "x", List.mem_cons_self _ _, by decide⟩

/-- C2 counterexample: a string of the claimed shape with a minus-sign
offset is rejected by `isISODate`, whose regex only allows a plus
sign. -/
theorem claimC2Counterexample :
    IsoShape true ("2015-04-28T10:00:00.000Z-02:00").data ∧
    isISODate (Val.vStr "2015-04-28T10:00:00.000Z-02:00") = false := by
  constructor
  · exact ⟨['2','0','1','5'], ['0','4'], ['2','8'], ['1','0'], ['0','0'], ['0','0'], ['0','0','0'],
      ['-','0','2',':','0','0'], by decide, by decide, by decide, by decide, by decide, by decide,
      by decide, by decide, Or.inr ⟨'-', ['0','2'], ['0','0'], by decide, Or.inr ⟨rfl, rfl⟩, by decide, by decide⟩⟩
  · decide

/-- C2 (amended): `isISODate` accepts exactly the strings of the form
YYYY-MM-DDTHH:MM:SS.mmmZ optionally followed by an offset suffix
+HH:MM with a plus sign only. -/
theorem claimC2 : ∀ v : Val,
    isISODate v = true ↔ ∃ s : String, v = Val.vStr s ∧ IsoShape false s.data := by
  intro v
  cases v with
  | vStr s => simpa [isISODate] using isoTest_iff s.data
  | vUndef => simp [isISODate]
  | vNull => simp [isISODate]
  | vBool b => simp [isISODate]
  | vNum n => simp [isISODate]
  | vArr xs => simp [isISODate]
  | vObj fl => simp [isISODate]

/-- C2 witness: the spec example without offset is accepted, via the
characterization. -/
theorem claimC2Witness : isISODate (Val.vStr "2015-04-28T10:00:00.000Z") = true :=
  (claimC2 (Val.vStr "2015-04-28T10:00:00.000Z")).mpr
    ⟨"2015-04-28T10:00:00.000Z", rfl, ['2','0','1','5'], ['0','4'], ['2','8'],
      ['1','0'], ['0','0'], ['0','0'], ['0','0','0'], [], by decide, by decide, by decide,
      by decide, by decide, by decide, by decide, by decide, Or.inl rfl⟩

/-- C1 (amended): the messages retained when a call ends are exactly
those emitted during that call (whatever was retained before is
cleared), and `getInvalidDescription` renders the first retained
record, returning null when there is none. -/
theorem claimC1 : ∀ (prior prior2 : List Msg) (fl : List (String × Tmpl)) (o : Val) (l r : Bool),
    (validateObjectS prior fl o l r).2 = (validateObjectS prior2 fl o l r).2 ∧
    getInvalidDescriptionM (validateObjectS prior fl o l r).2 =
      ((validateObjectS prior fl o l r).2.head?).map renderMsg :=
  fun _ _ _ _ _ _ => ⟨rfl, getInvalidDescriptionM_head _⟩

/-- C1 counterexample: a nested `obj` failure retains two records in
one call, and `getInvalidDescription` renders the first emitted record
(the nested one, for key b), not the most recent (the outer one, for
key a). -/
theorem claimC1Counterexample :
    ((validateObjectS [] [("a", Tmpl.objT [("b", Tmpl.baseT .isStringB)] false)]
        (Val.vObj [("a", Val.vObj [("b", Val.vNum 5)])]) false false).2).map renderMsg =
      ["invalid value for key \x27b\x27: \x275\x27; expectation: isString()",
       "invalid value for key \x27a\x27: \x27\x7b\"b\":5\x7d\x27; expectation: object(\x7bb: isString()\x7d)"] ∧
    getInvalidDescriptionM (validateObjectS [] [("a", Tmpl.objT [("b", Tmpl.baseT .isStringB)] false)]
        (Val.vObj [("a", Val.vObj [("b", Val.vNum 5)])]) false false).2 =
      some "invalid value for key \x27b\x27: \x275\x27; expectation: isString()" ∧
    ("invalid value for key \x27b\x27: \x275\x27; expectation: isString()" : String) ≠
      "invalid value for key \x27a\x27: \x27\x7b\"b\":5\x7d\x27; expectation: object(\x7bb: isString()\x7d)" := by
  refine ⟨?_, ?_, by decide⟩ <;>
    simp +decide [validateObjectS, congruentM, congruentKeys, evalT, lookupVal, evalBase,
      renderMsg, jsonStr, jsonStrFields, jsonEscape, describeTmpl, describeMapInner,
      describeFields, joinComma, basePredName, getInvalidDescriptionM, String.intercalate]

/-- C3 counterexample: `recObj` rewrites a template with a nested
literal map in place; the template tree afterwards differs from the
original. -/
theorem claimC3Counterexample :
    normFields [("a", Tmpl.mapLit [])] false ≠ [("a", Tmpl.mapLit [])] := by
  intro h
  simp only [normFields, normT, List.cons.injEq, Prod.mk.injEq] at h
  exact Tmpl.noConfusion h.1.2

/-- C3 (amended): `recObj` normalization leaves a template unchanged
exactly when none of its values is a literal map or array (otherwise it
mutates the template in place), and the rewrite is idempotent, so
re-validation of an already-normalized template behaves the same. -/
theorem claimC3 : ∀ (fl : List (String × Tmpl)) (loose : Bool),
    (normFields fl loose = fl ↔ ∀ p ∈ fl, isLitNode p.2 = false) ∧
    normFields (normFields fl loose) loose = normFields fl loose :=
  fun fl loose => ⟨normFields_eq_self_iff fl loose, normFields_idem fl loose⟩

/-- C3 witness: a template whose values are all predicates is left
unchanged by the normalizer. -/
theorem claimC3Witness :
    normFields [("a", Tmpl.baseT .isStringB)] false = [("a", Tmpl.baseT .isStringB)] :=
  (claimC3 [("a", Tmpl.baseT .isStringB)] false).1.mpr (by decide)

/-- C4: in loose mode a missing template key fails with a key-set
mismatch while an extra object key does not change the verdict; in
exact mode any key-set difference fails; and the spec example template
a-isString against object a-x, b-1 succeeds loosely and fails
exactly. -/
theorem claimC4 :
    (∀ (prior : List Msg) (fl : List (String × Tmpl)) (ofl : List (String × Val)) (k : String),
      k ∈ fieldKeys fl → k ∉ valKeys ofl →
      validateObjectS prior fl (Val.vObj ofl) true false =
        (false, [Msg.invalidKeys (fieldKeys fl) (valKeys ofl)]))
    ∧ (∀ (prior : List Msg) (fl : List (String × Tmpl)) (ofl : List (String × Val))
        (kx : String) (vx : Val), kx ∉ fieldKeys fl →
      (validateObjectS prior fl (Val.vObj ((kx, vx) :: ofl)) true false).1 =
        (validateObjectS prior fl (Val.vObj ofl) true false).1)
    ∧ (∀ (prior : List Msg) (fl : List (String × Tmpl)) (ofl : List (String × Val)),
      keySetEq (fieldKeys fl) (valKeys ofl) = false →
      validateObjectS prior fl (Val.vObj ofl) false false =
        (false, [Msg.invalidKeys (fieldKeys fl) (valKeys ofl)]))
    ∧ (validateObjectS [] [("a", Tmpl.baseT .isStringB)]
        (Val.vObj [("a", Val.vStr "x"), ("b", Val.vNum 1)]) true false).1 = true
    ∧ (validateObjectS [] [("a", Tmpl.baseT .isStringB)]
        (Val.vObj [("a", Val.vStr "x"), ("b", Val.vNum 1)]) false false).1 = false := by
  refine ⟨?_, ?_, ?_, ?_, ?_⟩
  · intro prior fl ofl k hk hnk
    have hall : (fl.map Prod.fst).all ((ofl.map Prod.fst).contains ·) = false := by
      rw [List.all_eq_false]
      refine ⟨k, hk, ?_⟩
      simp only [Bool.not_eq_true]
      rw [← Bool.not_eq_true]
      intro hc
      exact hnk (by simpa [valKeys] using hc)
    simp only [validateObjectS, congruentM, fieldKeys, valKeys, hall, if_true, if_false,
      Bool.false_eq_true, ite_false]
  · intro prior fl ofl kx vx hkx
    have hne : ∀ p ∈ fl, p.1 ≠ kx := by
      intro p hp he
      exact hkx (by simp [fieldKeys, he ▸ List.mem_map_of_mem Prod.fst hp])
    have hnm : kx ∉ fl.map Prod.fst := by simpa [fieldKeys] using hkx
    simp only [validateObjectS, congruentM, List.map_cons]
    rw [containsAll_extend _ _ _ hnm, congruentKeys_extend _ _ _ _ _ hne]
    rcases Bool.eq_false_or_eq_true ((fl.map Prod.fst).all ((ofl.map Prod.fst).contains ·)) with hc | hc <;>
      simp only [hc] <;> rfl
  · intro prior fl ofl hks
    have : ((fl.map Prod.fst).all ((ofl.map Prod.fst).contains ·) &&
        (ofl.map Prod.fst).all ((fl.map Prod.fst).contains ·)) = false := by
      simpa [keySetEq, fieldKeys, valKeys] using hks
    simp only [validateObjectS, congruentM, fieldKeys, valKeys, this, if_false,
      Bool.false_eq_true, ite_false]
  · simp +decide [validateObjectS, congruentM, congruentKeys, evalT, lookupVal, evalBase]
  · simp +decide [validateObjectS, congruentM, congruentKeys, evalT, lookupVal, evalBase]

/-- C4 witness: the three universally quantified parts instantiated at
concrete inputs. -/
theorem claimC4Witness :
    validateObjectS [] [("a", Tmpl.baseT .isStringB)] (Val.vObj []) true false =
      (false, [Msg.invalidKeys ["a"] []]) ∧
    (validateObjectS [] [("a", Tmpl.baseT .isStringB)]
        (Val.vObj [("x", Val.vNum 1), ("a", Val.vStr "s")]) true false).1 =
      (validateObjectS [] [("a", Tmpl.baseT .isStringB)] (Val.vObj [("a", Val.vStr "s")]) true false).1 ∧
    validateObjectS [] [("a", Tmpl.baseT .isStringB)] (Val.vObj [("b", Val.vNum 1)]) false false =
      (false, [Msg.invalidKeys ["a"] ["b"]]) :=
  ⟨claimC4.1 [] _ [] "a" (by decide) (by decide),
   claimC4.2.1 [] _ [("a", Val.vStr "s")] "x" (Val.vNum 1) (by decide),
   claimC4.2.2.1 [] _ [("b", Val.vNum 1)] (by decide)⟩

/-- C7 (amended): every call clears the records of earlier calls (the
result is independent of the prior state), and a matching recursive
validation still returns true when repeated on the template the first
call normalized in place; but a call that returns true can retain a
record (see the counterexample). -/
theorem claimC7 : ∀ (prior prior2 : List Msg) (fl : List (String × Tmpl)) (o : Val) (l r : Bool),
    validateObjectS prior fl o l r = validateObjectS prior2 fl o l r ∧
    ((validateObjectS prior fl o l true).1 = true →
      (validateObjectS prior2 (normFields fl l) o l true).1 = true) := by
  intro prior prior2 fl o l r
  refine ⟨rfl, ?_⟩
  intro h
  cases o with
  | vObj ofl =>
    simpa [validateObjectS, normFields_idem] using h
  | vUndef => simp [validateObjectS] at h
  | vNull => simp [validateObjectS] at h
  | vBool b => simp [validateObjectS] at h
  | vNum n => simp [validateObjectS] at h
  | vStr s => simp [validateObjectS] at h
  | vArr xs => simp [validateObjectS] at h

/-- C7 counterexample: a call that returns true after an `or` recovered
from a failed `obj` branch retains that branch record, so
`getInvalidDescription` is not null after a successful call. -/
theorem claimC7Counterexample :
    (validateObjectS []
        [("k", Tmpl.orT [Tmpl.objT [("a", Tmpl.baseT .isStringB)] false, Tmpl.objT [] true])]
        (Val.vObj [("k", Val.vObj [("b", Val.vNum 1)])]) false false) =
      (true, [Msg.invalidKeys ["a"] ["b"]]) ∧
    getInvalidDescriptionM [Msg.invalidKeys ["a"] ["b"]] ≠ none := by
  constructor
  · simp +decide [validateObjectS, congruentM, congruentKeys, evalT, evalOr, lookupVal, evalBase]
  · simp [getInvalidDescriptionM]

/-- C7 witness: a matching recursive validation repeated on the
normalized template still returns true. -/
theorem claimC7Witness :
    (validateObjectS [] (normFields [("k", Tmpl.baseT .isStringB)] false)
      (Val.vObj [("k", Val.vStr "x")]) false true).1 = true :=
  (claimC7 [] [] [("k", Tmpl.baseT .isStringB)] (Val.vObj [("k", Val.vStr "x")]) false true).2
    (by simp +decide [validateObjectS, congruentM, congruentKeys, evalT, lookupVal, evalBase,
      normFields, normT])

/-- C8: a candidate that is not a plain map at the top level makes
`validateObject` return false with no retained record, whatever was
retained before, so `getInvalidDescription` afterwards is null. -/
theorem claimC8 : ∀ (prior : List Msg) (fl : List (String × Tmpl)) (o : Val) (l r : Bool),
    isPlainObjectV o = false →
    validateObjectS prior fl o l r = (false, []) ∧
    getInvalidDescriptionM (validateObjectS prior fl o l r).2 = none := by
  intro prior fl o l r h
  cases o with
  | vObj fl2 => exact absurd h (by simp [isPlainObjectV])
  | vUndef => exact ⟨rfl, rfl⟩
  | vNull => exact ⟨rfl, rfl⟩
  | vBool b => exact ⟨rfl, rfl⟩
  | vNum n => exact ⟨rfl, rfl⟩
  | vStr s => exact ⟨rfl, rfl⟩
  | vArr xs => exact ⟨rfl, rfl⟩

/-- C8 witness: a number candidate with a nonempty prior state. -/
theorem claimC8Witness :
    validateObjectS [Msg.invalidKeys ["a"] []] [("a", Tmpl.baseT .isStringB)]
      (Val.vNum 3) false false = (false, []) ∧
    getInvalidDescriptionM (validateObjectS [Msg.invalidKeys ["a"] []]
      [("a", Tmpl.baseT .isStringB)] (Val.vNum 3) false false).2 = none :=
  claimC8 [Msg.invalidKeys ["a"] []] [("a", Tmpl.baseT .isStringB)] (Val.vNum 3) false false
    (by decide)

/-- C9: `recObj` on any non-plain-object argument throws the string
recObj must be called on a plain object instead of producing a
template. -/
theorem claimC9 : ∀ (t : Tmpl) (loose : Bool), isPlainTmpl t = false →
    recObjE t loose = .error "recObj must be called on a plain object" := by
  intro t loose h
  cases t with
  | mapLit fields => exact absurd h (by simp [isPlainTmpl])
  | optT f => rfl
  | nullableT f => rfl
  | existsT => rfl
  | objT fields loose2 => rfl
  | arrCongrT fields loose2 raw => rfl
  | arrT f mi ma => rfl
  | hashT f mi ma => rfl
  | andT fs => rfl
  | orT fs => rfl
  | choiceT options => rfl
  | isoDateT => rfl
  | baseT p => rfl
  | arrLit xs => rfl
  | litT v => rfl

/-- C9 witness: a scalar template argument is rejected with the thrown
string. -/
theorem claimC9Witness :
    recObjE (Tmpl.litT (Val.vNum 5)) false = .error "recObj must be called on a plain object" :=
  claimC9 (Tmpl.litT (Val.vNum 5)) false (by decide)
